import Mathlib

/-!
Verification of the schema-reconciliation and streaming classification
pipeline of `src/preprocessing/flight_data_extract_by_month.py`.

A pandas `DataFrame` produced by `read_csv(dtype=str)` is modelled as a
`Batch`: an ordered list of column names together with rows, each row a
list of cell values aligned positionally with the column list; a cell is
`Option String` (`none` models NaN / null).  All pipeline operations of
the source file that the claims concern are embedded below, keeping the
source's names.
-/

set_option maxRecDepth 10000

/-- A record batch: pandas DataFrame with string/null cells. -/
structure Batch where
  cols : List String
  rows : List (List (Option String))
deriving Repr, DecidableEq

/-- Is `c` an ASCII character in `[A-Z0-9]`?  (the character class kept by
`re.sub(r"[^A-Z0-9]", "", ·)` in `_norm`). -/
def isUpperDigit (c : Char) : Bool :=
  ('A' ≤ c && c ≤ 'Z') || ('0' ≤ c && c ≤ '9')

/-- Embeds `_norm(s) = re.sub(r"[^A-Z0-9]", "", s.upper())`:
uppercase, then remove every character outside `[A-Z0-9]`.
`Char.toUpper` agrees with Python's `str.upper` on ASCII strings
(the domain over which the embedding is faithful). -/
def _norm (s : String) : String :=
  String.mk ((s.toList.map Char.toUpper).filter isUpperDigit)

/-- The static alias table `CANON_MAP` of the source, in declaration
order: canonical field name paired with its ordered alias list. -/
def CANON_MAP : List (String × List String) :=
  [ ("FL_DATE", ["FL_DATE", "FLIGHT_DATE", "FLIGHTDATE"]),
    ("OP_UNIQUE_CARRIER",
      ["OP_UNIQUE_CARRIER", "OPERATING_AIRLINE", "OPERATINGCARRIER", "OP_CARRIER",
       "OPERATING_AIRLINE_IATA_CODE", "OPERATINGAIRLINEIATACODE"]),
    ("MKT_UNIQUE_CARRIER",
      ["MKT_UNIQUE_CARRIER", "MARKETING_AIRLINE_NETWORK", "MARKETINGCARRIER",
       "MKT_CARRIER", "MKTUNIQUECARRIER",
       "REPORTING_AIRLINE", "IATA_CODE_REPORTING_AIRLINE"]),
    ("OP_CARRIER_FL_NUM",
      ["OP_CARRIER_FL_NUM", "OP_CARRIER_FLNUM",
       "FL_NUM", "FLIGHT_NUM", "FLIGHT_NUMBER",
       "FLIGHT_NUMBER_REPORTING_AIRLINE", "FLIGHT_NUMBER_OPERATING_AIRLINE",
       "FLIGHT_NUMBER_REPORTINGAIRLINE", "FLIGHT_NUMBER_OPERATINGAIRLINE"]),
    ("ORIGIN", ["ORIGIN", "ORIGINAIRPORT", "ORIGIN_AIRPORT"]),
    ("DEST", ["DEST", "DESTAIRPORT", "DEST_AIRPORT"]),
    ("ORIGIN_STATE_ABR",
      ["ORIGIN_STATE_ABR", "ORIGIN_STATE_ABBREVIATION", "ORIGINSTATE", "ORIGIN_STATE"]),
    ("DEST_STATE_ABR",
      ["DEST_STATE_ABR", "DEST_STATE_ABBREVIATION", "DESTSTATE", "DEST_STATE"]),
    ("ORIGIN_COUNTRY_NAME", ["ORIGIN_COUNTRY_NAME", "ORIGINCOUNTRYNAME", "ORIGIN_COUNTRY"]),
    ("DEST_COUNTRY_NAME", ["DEST_COUNTRY_NAME", "DESTCOUNTRYNAME", "DEST_COUNTRY"]),
    ("CRS_DEP_TIME", ["CRS_DEP_TIME", "CRSDEPTIME"]),
    ("DEP_TIME", ["DEP_TIME", "DEPTIME"]),
    ("WHEELS_OFF", ["WHEELS_OFF", "WHEELSOFF"]),
    ("CRS_ARR_TIME", ["CRS_ARR_TIME", "CRSARRTIME"]),
    ("ARR_TIME", ["ARR_TIME", "ARRTIME"]),
    ("WHEELS_ON", ["WHEELS_ON", "WHEELSON"]),
    ("CANCELLED", ["CANCELLED", "CANCELLED_"]),
    ("DIVERTED", ["DIVERTED", "DIVERTED_"]) ]

/-- The source's `OUTPUT_COLS`: the canonical output field set, in
declared order. -/
def OUTPUT_COLS : List String :=
  ["FL_DATE",
   "OP_UNIQUE_CARRIER",
   "MKT_UNIQUE_CARRIER",
   "OP_CARRIER_FL_NUM",
   "ORIGIN", "DEST",
   "CRS_DEP_TIME", "DEP_TIME", "WHEELS_OFF",
   "CRS_ARR_TIME", "ARR_TIME", "WHEELS_ON",
   "CANCELLED", "DIVERTED"]

/-- The source's `US_TERRITORY_STATE_ABR` set. -/
def US_TERRITORY_STATE_ABR : List String := ["PR", "VI", "GU", "AS", "MP"]

/-- Lookup in `norm_to_actual`: the Python dict comprehension
`{_norm(c): c for c in df.columns}` keeps, for each normalized key, the
LAST column producing it; lookup is modelled as the first match in the
reversed column list. -/
def winnerCol (cols : List String) (n : String) : Option String :=
  cols.reverse.find? (fun c => _norm c == n)

/-- One iteration of the `for canon, aliases in CANON_MAP.items()` loop of
`standardize_columns`: scan the alias list in declared order, and on the
first alias whose normalized form is a key of `norm_to_actual`, emit the
pair `(actual_column, canonical_name)` destined for `rename_map`. -/
def bindEntry (cols : List String) (kv : String × List String) :
    Option (String × String) :=
  (kv.2.find? (fun a => (winnerCol cols (_norm a)).isSome)).bind fun a =>
    (winnerCol cols (_norm a)).map fun act => (act, kv.1)

/-- The `rename_map` dict built by `standardize_columns`, as an
association list in insertion order (later insertions shadow earlier
ones on lookup, matching Python dict assignment). -/
def renameMap (cols : List String) : List (String × String) :=
  CANON_MAP.filterMap (bindEntry cols)

/-- Embeds `df.rename(columns=rename_map)` for one column name: renamed
if the name is a key of `rename_map` (last insertion wins), otherwise
left unchanged. -/
def renameCol (cols : List String) (c : String) : String :=
  match (renameMap cols).reverse.find? (fun p => p.1 == c) with
  | some p => p.2
  | none => c

/-- The column list after `standardize_columns`: every column renamed
through `rename_map`. -/
def stdCols (cols : List String) : List String :=
  cols.map (renameCol cols)

/-- Embeds `standardize_columns(df)`: rename every column through
`rename_map`; row data is untouched.  (The source's `if rename_map:`
guard is behaviourally identical to renaming with an empty map.) -/
def standardize_columns (b : Batch) : Batch :=
  ⟨stdCols b.cols, b.rows⟩

/-- The value of row `row` at the column named `c` (`df["c"]` for one
row); `none` when the column is absent or the row is short. -/
def cellAt (cols : List String) (row : List (Option String)) (c : String) :
    Option String :=
  match cols.findIdx? (· == c) with
  | some i => (row.get? i).getD none
  | none => none

/-- The country-branch row mask of `filter_domestic`:
`(df["ORIGIN_COUNTRY_NAME"] == "UNITED STATES") & (df["DEST_COUNTRY_NAME"] == "UNITED STATES")`
(a NaN cell compares unequal, as in pandas). -/
def countryMask (cols : List String) (row : List (Option String)) : Bool :=
  (cellAt cols row "ORIGIN_COUNTRY_NAME" == some "UNITED STATES") &&
  (cellAt cols row "DEST_COUNTRY_NAME" == some "UNITED STATES")

/-- The state-branch base mask:
`df["ORIGIN_STATE_ABR"].notna() & df["DEST_STATE_ABR"].notna()`. -/
def stateMask (cols : List String) (row : List (Option String)) : Bool :=
  (cellAt cols row "ORIGIN_STATE_ABR").isSome &&
  (cellAt cols row "DEST_STATE_ABR").isSome

/-- Embeds `series.isin(US_TERRITORY_STATE_ABR)` for one cell (NaN is not in). -/
def isTerritory (v : Option String) : Bool :=
  match v with
  | some s => US_TERRITORY_STATE_ABR.contains s
  | none => false

/-- The extra mask applied when `include_territories` is false:
`~isin(origin) & ~isin(dest)`. -/
def territoryMask (cols : List String) (row : List (Option String)) : Bool :=
  !(isTerritory (cellAt cols row "ORIGIN_STATE_ABR")) &&
  !(isTerritory (cellAt cols row "DEST_STATE_ABR"))

/-- Embeds `filter_domestic(df, include_territories)`: standardize the
columns, then run the prioritized fallback chain — country-name pair,
else state-abbreviation pair, else keep everything. -/
def filter_domestic (b : Batch) (include_territories : Bool) : Batch :=
  let s := standardize_columns b
  if "ORIGIN_COUNTRY_NAME" ∈ s.cols ∧ "DEST_COUNTRY_NAME" ∈ s.cols then
    ⟨s.cols, s.rows.filter (countryMask s.cols)⟩
  else if "ORIGIN_STATE_ABR" ∈ s.cols ∧ "DEST_STATE_ABR" ∈ s.cols then
    if include_territories then
      ⟨s.cols, s.rows.filter (stateMask s.cols)⟩
    else
      ⟨s.cols, s.rows.filter (fun r => stateMask s.cols r && territoryMask s.cols r)⟩
  else
    s

/-- The hard schema failure of `keep_aa`:
`raise KeyError(f"Missing carrier column; have: {list(df.columns)}")`.
The exception's message text and its embedded column listing are carried
structurally. -/
structure SchemaErr where
  msg : String
  available : List String
deriving Repr, DecidableEq

/-- Embeds `keep_aa(df, use_marketing)`: standardize, resolve the carrier
column with the primary/fallback chain, raise on failure, else keep rows
whose value in the resolved column equals `"AA"` exactly. -/
def keep_aa (b : Batch) (use_marketing : Bool) : Except SchemaErr Batch :=
  let s := standardize_columns b
  let primary := if use_marketing then "MKT_UNIQUE_CARRIER" else "OP_UNIQUE_CARRIER"
  let col? : Option String :=
    if primary ∈ s.cols then
      some primary
    else
      let candidates :=
        (if primary ≠ "MKT_UNIQUE_CARRIER" then ["MKT_UNIQUE_CARRIER"] else []) ++
        (if primary ≠ "OP_UNIQUE_CARRIER" then ["OP_UNIQUE_CARRIER"] else [])
      candidates.find? (fun c => decide (c ∈ s.cols))
  match col? with
  | none => .error ⟨"Missing carrier column", s.cols⟩
  | some col => .ok ⟨s.cols, s.rows.filter (fun r => cellAt s.cols r col == some "AA")⟩

/-- Embeds `select_output_cols(df)`: standardize, keep the `OUTPUT_COLS`
members present (in `OUTPUT_COLS` order); an empty selection yields the
empty `pd.DataFrame()` (zero rows, zero columns).  The trailing
`astype("string")` casts change dtype only, never a cell's string value,
so they are invisible at this level. -/
def select_output_cols (b : Batch) : Batch :=
  let s := standardize_columns b
  let cols := OUTPUT_COLS.filter (fun c => decide (c ∈ s.cols))
  if cols.isEmpty then ⟨[], []⟩
  else ⟨cols, s.rows.map (fun r => cols.map (fun c => cellAt s.cols r c))⟩

/-- One line of the output CSV: a header naming the columns, or a data
row. -/
inductive CsvLine where
  | header (cols : List String)
  | row (vals : List (Option String))
deriving Repr, DecidableEq

/-- Embeds pandas `df.empty`: true when either axis has length zero. -/
def Batch.isEmptyDf (b : Batch) : Bool :=
  b.rows.isEmpty || b.cols.isEmpty

/-- Embeds `append_write(df, out_path, header_written)`: an empty frame
writes nothing and returns the flag unchanged; otherwise the rows are
appended, preceded by a header row exactly when the flag was false, and
the call returns `True`.  The file is modelled as the list of lines
appended so far. -/
def append_write (b : Batch) (file : List CsvLine) (header_written : Bool) :
    List CsvLine × Bool :=
  if b.isEmptyDf then (file, header_written)
  else
    (file ++ (if header_written then [] else [CsvLine.header b.cols]) ++
       b.rows.map CsvLine.row,
     true)

/-- The driver loop of `main` in `--append_out` mode: fold
`header_written = append_write(dfm, out, header_written)` over the
per-month result batches, starting from an empty file and a false flag. -/
def runAppend (batches : List Batch) : List CsvLine × Bool :=
  batches.foldl (fun st b => append_write b st.1 st.2) ([], false)

/-- The schema-driven branch of the Domestic Classifier, a function of
the batch's column list alone (row values cannot appear). -/
inductive DomSignal where
  | countryName
  | stateAbr
  | noSignal
deriving Repr, DecidableEq

/-- Which branch `filter_domestic` takes, computed from the column list
only. -/
def domBranch (cols : List String) : DomSignal :=
  let s := stdCols cols
  if "ORIGIN_COUNTRY_NAME" ∈ s ∧ "DEST_COUNTRY_NAME" ∈ s then .countryName
  else if "ORIGIN_STATE_ABR" ∈ s ∧ "DEST_STATE_ABR" ∈ s then .stateAbr
  else .noSignal

/-! ### Facts about the alias table -/

/-- The normalized forms of one entry's alias list. -/
def aliasNorms (kv : String × List String) : List String := kv.2.map _norm

/-- In every entry of `CANON_MAP`, the canonical name is its own first
alias. -/
theorem canonHead : ∀ kv ∈ CANON_MAP, kv.2.head? = some kv.1 := by decide

/-- The canonical field names of `CANON_MAP` are pairwise distinct. -/
theorem canonKeysNodup : (CANON_MAP.map Prod.fst).Nodup := by decide

/-- Distinct entries of `CANON_MAP` have disjoint sets of normalized
alias forms. -/
theorem canonNormsDisjoint :
    CANON_MAP.Pairwise (fun kv kv' => ∀ n ∈ aliasNorms kv, n ∉ aliasNorms kv') := by decide

theorem entry_unique {kv kv' : String × List String} (h : kv ∈ CANON_MAP)
    (h' : kv' ∈ CANON_MAP) (hk : kv.1 = kv'.1) : kv = kv' :=
  List.inj_on_of_nodup_map canonKeysNodup h h' hk

theorem cross_norm {kv kv' : String × List String} (h : kv ∈ CANON_MAP)
    (h' : kv' ∈ CANON_MAP) (hne : kv.1 ≠ kv'.1) :
    ∀ n ∈ aliasNorms kv, n ∉ aliasNorms kv' := by
  have hsymm : Symmetric (fun kv kv' : String × List String =>
      ∀ n ∈ aliasNorms kv, n ∉ aliasNorms kv') := by
    intro x y hxy n hny hnx
    exact hxy n hnx hny
  have hne2 : kv ≠ kv' := fun he => hne (by rw [he])
  exact List.Pairwise.forall hsymm canonNormsDisjoint h h' hne2

theorem canonical_first_alias {kv : String × List String} (h : kv ∈ CANON_MAP) :
    ∃ tl, kv.2 = kv.1 :: tl := by
  have hh := canonHead kv h
  cases h2 : kv.2 with
  | nil => rw [h2] at hh; simp at hh
  | cons a tl =>
    rw [h2] at hh
    simp only [List.head?_cons, Option.some.injEq] at hh
    exact ⟨tl, by rw [hh]⟩

theorem canon_norm_mem {kv : String × List String} (h : kv ∈ CANON_MAP) :
    _norm kv.1 ∈ aliasNorms kv := by
  obtain ⟨tl, h2⟩ := canonical_first_alias h
  simp [aliasNorms, h2]

theorem canon_norm_ne {kv kv' : String × List String} (h : kv ∈ CANON_MAP)
    (h' : kv' ∈ CANON_MAP) (hne : kv.1 ≠ kv'.1) : _norm kv.1 ≠ _norm kv'.1 :=
  fun he => cross_norm h h' hne _ (canon_norm_mem h) (he ▸ canon_norm_mem h')

/-! ### Facts about resolution (`winnerCol`, `bindEntry`, `renameMap`) -/

theorem winnerCol_mem_norm {cols : List String} {n act : String}
    (h : winnerCol cols n = some act) : act ∈ cols ∧ _norm act = n := by
  unfold winnerCol at h
  have h1 := List.find?_some h
  have h2 := List.mem_of_find?_eq_some h
  rw [List.mem_reverse] at h2
  exact ⟨h2, by simpa using h1⟩

theorem winnerCol_eq_none {cols : List String} {n : String} :
    winnerCol cols n = none ↔ ∀ c ∈ cols, _norm c ≠ n := by
  simp [winnerCol, List.find?_eq_none]

theorem bindEntry_eq_none {cols : List String} {kv : String × List String} :
    bindEntry cols kv = none ↔ ∀ a ∈ kv.2, winnerCol cols (_norm a) = none := by
  unfold bindEntry
  cases hf : kv.2.find? (fun a => (winnerCol cols (_norm a)).isSome) with
  | none =>
    simp only [Option.none_bind, true_iff]
    intro a ha
    have := List.find?_eq_none.mp hf a ha
    simpa [Option.not_isSome_iff_eq_none] using this
  | some a =>
    have hpa := List.find?_some hf
    have hma := List.mem_of_find?_eq_some hf
    simp only [Option.some_bind]
    constructor
    · intro h
      rw [Option.map_eq_none'] at h
      rw [h] at hpa
      simp at hpa
    · intro h
      rw [h a hma] at hpa
      simp at hpa

theorem bindEntry_eq_some {cols : List String} {kv : String × List String}
    {p : String × String} (h : bindEntry cols kv = some p) :
    p.2 = kv.1 ∧ ∃ a ∈ kv.2,
      kv.2.find? (fun a => (winnerCol cols (_norm a)).isSome) = some a ∧
      winnerCol cols (_norm a) = some p.1 := by
  unfold bindEntry at h
  cases hf : kv.2.find? (fun a => (winnerCol cols (_norm a)).isSome) with
  | none => rw [hf] at h; simp at h
  | some a =>
    rw [hf] at h
    simp only [Option.some_bind] at h
    cases hw : winnerCol cols (_norm a) with
    | none => rw [hw] at h; simp at h
    | some act =>
      rw [hw] at h
      simp only [Option.map_some', Option.some.injEq] at h
      refine ⟨by rw [← h], a, List.mem_of_find?_eq_some hf, rfl, ?_⟩
      rw [hw, ← h]

theorem mem_renameMap {cols : List String} {p : String × String} :
    p ∈ renameMap cols ↔ ∃ kv ∈ CANON_MAP, bindEntry cols kv = some p := by
  simp [renameMap, List.mem_filterMap]

theorem renameMap_spec {cols : List String} {p : String × String}
    (h : p ∈ renameMap cols) :
    ∃ kv ∈ CANON_MAP, bindEntry cols kv = some p ∧ p.2 = kv.1 ∧
      p.1 ∈ cols ∧ _norm p.1 ∈ aliasNorms kv := by
  obtain ⟨kv, hkv, hbe⟩ := mem_renameMap.mp h
  obtain ⟨h2, a, ha, hfind, hw⟩ := bindEntry_eq_some hbe
  obtain ⟨hmem, hnorm⟩ := winnerCol_mem_norm hw
  refine ⟨kv, hkv, hbe, h2, hmem, ?_⟩
  rw [hnorm]
  exact List.mem_map_of_mem _ ha

theorem pairwise_filterMap_of {α β : Type} {R : α → α → Prop} {S : β → β → Prop}
    {f : α → Option β}
    (H : ∀ a b, R a b → ∀ p, f a = some p → ∀ q, f b = some q → S p q) :
    ∀ {l : List α}, l.Pairwise R → (l.filterMap f).Pairwise S := by
  intro l hl
  induction hl with
  | nil => simp
  | @cons a tl hhead htail ih =>
    rw [List.filterMap_cons]
    cases hfa : f a with
    | none => exact ih
    | some p =>
      refine List.Pairwise.cons ?_ ih
      intro q hq
      obtain ⟨b, hb, hfb⟩ := List.mem_filterMap.mp hq
      exact H a b (hhead b hb) p hfa q hfb

theorem renameMap_keys_nodup (cols : List String) :
    ((renameMap cols).map Prod.fst).Nodup := by
  unfold List.Nodup
  rw [List.pairwise_map]
  apply pairwise_filterMap_of (R := fun kv kv' => ∀ n ∈ aliasNorms kv, n ∉ aliasNorms kv')
  · intro kv kv' hR p hp q hq
    obtain ⟨-, ap, hap, -, hwp⟩ := bindEntry_eq_some hp
    obtain ⟨-, aq, haq, -, hwq⟩ := bindEntry_eq_some hq
    obtain ⟨-, hnp⟩ := winnerCol_mem_norm hwp
    obtain ⟨-, hnq⟩ := winnerCol_mem_norm hwq
    intro he
    have h1 : _norm p.1 ∈ aliasNorms kv := hnp ▸ List.mem_map_of_mem _ hap
    have h2 : _norm q.1 ∈ aliasNorms kv' := hnq ▸ List.mem_map_of_mem _ haq
    rw [he] at h1
    exact hR _ h1 h2
  · exact canonNormsDisjoint

theorem renameMap_key_unique {cols : List String} {p q : String × String}
    (hp : p ∈ renameMap cols) (hq : q ∈ renameMap cols) (h : p.1 = q.1) : p = q :=
  List.inj_on_of_nodup_map (renameMap_keys_nodup cols) hp hq h

theorem renameMap_snd_unique {cols : List String} {p q : String × String}
    (hp : p ∈ renameMap cols) (hq : q ∈ renameMap cols) (h : p.2 = q.2) : p = q := by
  obtain ⟨kvp, hkvp, hbp, h2p, -, -⟩ := renameMap_spec hp
  obtain ⟨kvq, hkvq, hbq, h2q, -, -⟩ := renameMap_spec hq
  have : kvp = kvq := entry_unique hkvp hkvq (by rw [← h2p, ← h2q, h])
  rw [this] at hbp
  rw [hbp] at hbq
  exact (Option.some.injEq _ _ ▸ hbq)

theorem renameCol_eq_of_mem {cols : List String} {act k : String}
    (h : (act, k) ∈ renameMap cols) : renameCol cols act = k := by
  unfold renameCol
  cases hf : (renameMap cols).reverse.find? (fun p => p.1 == act) with
  | none =>
    exfalso
    have := List.find?_eq_none.mp hf (act, k) (List.mem_reverse.mpr h)
    simp at this
  | some p =>
    have hp1 : p.1 = act := by simpa using List.find?_some hf
    have hpm : p ∈ renameMap cols := List.mem_reverse.mp (List.mem_of_find?_eq_some hf)
    have : p = (act, k) := renameMap_key_unique hpm h hp1
    rw [this]

theorem renameCol_eq_self {cols : List String} {c : String}
    (h : ∀ k, (c, k) ∉ renameMap cols) : renameCol cols c = c := by
  unfold renameCol
  cases hf : (renameMap cols).reverse.find? (fun p => p.1 == c) with
  | none => rfl
  | some p =>
    exfalso
    have hp1 : p.1 = c := by simpa using List.find?_some hf
    have hpm : p ∈ renameMap cols := List.mem_reverse.mp (List.mem_of_find?_eq_some hf)
    exact h p.2 (by rw [← hp1]; exact hpm)

theorem renameCol_cases (cols : List String) (c : String) :
    (∃ k, (c, k) ∈ renameMap cols ∧ renameCol cols c = k) ∨
    (renameCol cols c = c ∧ ∀ k, (c, k) ∉ renameMap cols) := by
  by_cases h : ∃ k, (c, k) ∈ renameMap cols
  · obtain ⟨k, hk⟩ := h
    exact Or.inl ⟨k, hk, renameCol_eq_of_mem hk⟩
  · push_neg at h
    exact Or.inr ⟨renameCol_eq_self h, h⟩

theorem find?_congr {α : Type} {p q : α → Bool} :
    ∀ {l : List α}, (∀ x ∈ l, p x = q x) → l.find? p = l.find? q := by
  intro l
  induction l with
  | nil => intro _; rfl
  | cons a tl ih =>
    intro h
    have ha := h a (List.mem_cons_self a tl)
    by_cases hpa : p a = true
    · rw [List.find?_cons_of_pos _ hpa, List.find?_cons_of_pos _ (ha ▸ hpa)]
    · rw [List.find?_cons_of_neg _ hpa, List.find?_cons_of_neg _ (ha ▸ hpa)]
      exact ih (fun x hx => h x (List.mem_cons_of_mem a hx))

theorem find?_eq_some_of_unique {α : Type} {p : α → Bool} {l : List α} {v : α}
    (hex : v ∈ l) (hv : p v = true) (huniq : ∀ x ∈ l, p x = true → x = v) :
    l.find? p = some v := by
  cases hf : l.find? p with
  | none =>
    exfalso
    have := List.find?_eq_none.mp hf v hex
    exact this hv
  | some w =>
    have h1 := List.find?_some hf
    have h2 := List.mem_of_find?_eq_some hf
    rw [huniq w h2 h1]

theorem winnerCol_stdCols (cols : List String) (n : String) :
    winnerCol (stdCols cols) n =
      (cols.reverse.find? (fun c => _norm (renameCol cols c) == n)).map (renameCol cols) := by
  unfold winnerCol stdCols
  rw [← List.map_reverse, List.find?_map]
  rfl

/-- The decisive step for idempotence: rerunning one alias-table entry on
the standardized column list either still finds nothing, or finds the
canonical column and binds it to itself. -/
theorem bindEntry_stdCols {cols : List String} {kv : String × List String}
    (hkv : kv ∈ CANON_MAP) :
    bindEntry (stdCols cols) kv = (bindEntry cols kv).map (fun _ => (kv.1, kv.1)) := by
  obtain ⟨tl, htl⟩ := canonical_first_alias hkv
  cases hbe : bindEntry cols kv with
  | none =>
    simp only [Option.map_none']
    have hall := bindEntry_eq_none.mp hbe
    rw [bindEntry_eq_none]
    intro a ha
    rw [winnerCol_eq_none]
    intro c' hc'
    unfold stdCols at hc'
    obtain ⟨c, hc, rfl⟩ := List.mem_map.mp hc'
    rcases renameCol_cases cols c with ⟨k, hk, hrc⟩ | ⟨hrc, -⟩
    · rw [hrc]
      obtain ⟨kv', hkv', hbe', h2, -, -⟩ := renameMap_spec hk
      have hk2 : k = kv'.1 := h2
      have hne : kv'.1 ≠ kv.1 := by
        intro he
        have hkveq : kv' = kv := entry_unique hkv' hkv he
        rw [hkveq, hbe] at hbe'
        simp at hbe'
      rw [hk2]
      intro he
      have h1 : _norm kv'.1 ∈ aliasNorms kv' := canon_norm_mem hkv'
      have h2a : _norm a ∈ aliasNorms kv := List.mem_map_of_mem _ ha
      exact cross_norm hkv' hkv hne _ h1 (by rw [he]; exact h2a)
    · rw [hrc]
      exact winnerCol_eq_none.mp (hall a ha) c hc
  | some p =>
    obtain ⟨hp2, a, ha, hfind, hw⟩ := bindEntry_eq_some hbe
    obtain ⟨hactmem, hactnorm⟩ := winnerCol_mem_norm hw
    have hpmem : p ∈ renameMap cols := mem_renameMap.mpr ⟨kv, hkv, hbe⟩
    have hpair : p = (p.1, kv.1) := Prod.ext rfl hp2
    have hρact : renameCol cols p.1 = kv.1 :=
      renameCol_eq_of_mem (hpair ▸ hpmem)
    simp only [Option.map_some']
    have hKEY : winnerCol (stdCols cols) (_norm kv.1) = some kv.1 := by
      rw [winnerCol_stdCols]
      cases hw0 : winnerCol cols (_norm kv.1) with
      | some w0 =>
        have hP : ((winnerCol cols (_norm kv.1)).isSome : Bool) = true := by
          rw [hw0]; rfl
        have hfindhead :
            kv.2.find? (fun x => (winnerCol cols (_norm x)).isSome) = some kv.1 := by
          rw [htl]; exact List.find?_cons_of_pos _ hP
        have haeq : a = kv.1 := by
          rw [hfindhead] at hfind
          exact ((Option.some.injEq _ _).mp hfind).symm
        have hnorm1 : _norm p.1 = _norm kv.1 := by rw [hactnorm, haeq]
        have hcongr : ∀ c ∈ cols.reverse,
            (_norm (renameCol cols c) == _norm kv.1) = (_norm c == _norm kv.1) := by
          intro c hcr
          rcases renameCol_cases cols c with ⟨k, hk, hrc⟩ | ⟨hrc, -⟩
          · rw [hrc]
            obtain ⟨kv', hkv', hbe', h2, -, hnormc⟩ := renameMap_spec hk
            have hk2 : k = kv'.1 := h2
            have hnc : _norm c ∈ aliasNorms kv' := hnormc
            by_cases he : kv'.1 = kv.1
            · have hkveq : kv' = kv := entry_unique hkv' hkv he
              rw [hkveq, hbe] at hbe'
              have hpq : p = (c, k) := (Option.some.injEq _ _).mp hbe'
              have hcp : c = p.1 := by rw [hpq]
              have hl : _norm k = _norm kv.1 := by rw [hk2, he]
              have hr : _norm c = _norm kv.1 := by rw [hcp, hnorm1]
              rw [hl, hr]
            · have hl : _norm k ≠ _norm kv.1 := by
                rw [hk2]; exact canon_norm_ne hkv' hkv he
              have hr : _norm c ≠ _norm kv.1 := by
                intro hcn
                exact cross_norm hkv' hkv he _ hnc
                  (by rw [hcn]; exact canon_norm_mem hkv)
              rw [beq_eq_false_iff_ne.mpr hl, beq_eq_false_iff_ne.mpr hr]
          · rw [hrc]
        rw [find?_congr hcongr]
        have hfw : cols.reverse.find? (fun c => _norm c == _norm kv.1) = some w0 := hw0
        rw [hfw]
        have hw0p : w0 = p.1 := by
          rw [haeq] at hw
          rw [hw0] at hw
          exact (Option.some.injEq _ _).mp hw
        rw [hw0p, Option.map_some', hρact]
      | none =>
        have hnone := winnerCol_eq_none.mp hw0
        have hfind2 : cols.reverse.find?
            (fun c => _norm (renameCol cols c) == _norm kv.1) = some p.1 := by
          apply find?_eq_some_of_unique (List.mem_reverse.mpr hactmem)
          · show (_norm (renameCol cols p.1) == _norm kv.1) = true
            rw [hρact]
            exact beq_self_eq_true _
          · intro x hxr hx
            have hx' : (_norm (renameCol cols x) == _norm kv.1) = true := hx
            have hxc : x ∈ cols := List.mem_reverse.mp hxr
            rcases renameCol_cases cols x with ⟨k, hk, hrc⟩ | ⟨hrc, -⟩
            · rw [hrc, beq_iff_eq] at hx'
              obtain ⟨kv', hkv', hbe', h2, -, -⟩ := renameMap_spec hk
              have hk2 : k = kv'.1 := h2
              have he : kv'.1 = kv.1 := by
                by_contra hne
                exact (hk2 ▸ canon_norm_ne hkv' hkv hne) hx'
              have hkveq : kv' = kv := entry_unique hkv' hkv he
              rw [hkveq, hbe] at hbe'
              have hpq : p = (x, k) := (Option.some.injEq _ _).mp hbe'
              rw [hpq]
            · rw [hrc, beq_iff_eq] at hx'
              exact absurd hx' (hnone x hxc)
        rw [hfind2, Option.map_some', hρact]
    have hPhead : ((winnerCol (stdCols cols) (_norm kv.1)).isSome : Bool) = true := by
      rw [hKEY]; rfl
    have hfh : List.find? (fun x => (winnerCol (stdCols cols) (_norm x)).isSome)
        (kv.1 :: tl) = some kv.1 :=
      List.find?_cons_of_pos _ hPhead
    unfold bindEntry
    rw [htl, hfh]
    simp only [Option.some_bind]
    rw [hKEY]
    rfl

theorem renameMap_stdCols_pairs (cols : List String) :
    ∀ p ∈ renameMap (stdCols cols), p.1 = p.2 := by
  intro p hp
  obtain ⟨kv, hkv, hbe⟩ := mem_renameMap.mp hp
  rw [bindEntry_stdCols hkv] at hbe
  cases h : bindEntry cols kv with
  | none => rw [h] at hbe; simp at hbe
  | some q =>
    rw [h] at hbe
    simp only [Option.map_some', Option.some.injEq] at hbe
    rw [← hbe]

theorem renameCol_id_of_pairs_eq {cols : List String}
    (h : ∀ p ∈ renameMap cols, p.1 = p.2) (c : String) : renameCol cols c = c := by
  unfold renameCol
  cases hf : (renameMap cols).reverse.find? (fun p => p.1 == c) with
  | none => rfl
  | some p =>
    have hp1 : p.1 = c := by simpa using List.find?_some hf
    have hpm : p ∈ renameMap cols := List.mem_reverse.mp (List.mem_of_find?_eq_some hf)
    show p.2 = c
    rw [← h p hpm, hp1]

theorem stdCols_idem (cols : List String) : stdCols (stdCols cols) = stdCols cols := by
  have h1 : ∀ c ∈ stdCols cols, renameCol (stdCols cols) c = c :=
    fun c _ => renameCol_id_of_pairs_eq (renameMap_stdCols_pairs cols) c
  calc stdCols (stdCols cols) = (stdCols cols).map id := List.map_congr_left h1
  _ = stdCols cols := List.map_id _

theorem renameMap_canonical_pairs {cols : List String}
    (h : ∀ c ∈ cols, c ∈ CANON_MAP.map Prod.fst) :
    ∀ p ∈ renameMap cols, p.1 = p.2 := by
  intro p hp
  obtain ⟨kv, hkv, hbe, h2, hmem, hnorm⟩ := renameMap_spec hp
  obtain ⟨kv', hkv', h1⟩ := List.mem_map.mp (h p.1 hmem)
  by_cases he : kv'.1 = kv.1
  · rw [h2, ← he, h1]
  · exfalso
    have hn1 : _norm kv'.1 ∈ aliasNorms kv' := canon_norm_mem hkv'
    exact cross_norm hkv' hkv he _ hn1 (by rw [h1]; exact hnorm)

/-! ### Row-keep conditions in specification vocabulary -/

/-- Spec wording for the country branch: both endpoint country names
equal the string "UNITED STATES" (case-sensitive exact comparison). -/
def CountryKeep (cols : List String) (r : List (Option String)) : Prop :=
  cellAt cols r "ORIGIN_COUNTRY_NAME" = some "UNITED STATES" ∧
  cellAt cols r "DEST_COUNTRY_NAME" = some "UNITED STATES"

instance (cols : List String) (r : List (Option String)) :
    Decidable (CountryKeep cols r) := by
  unfold CountryKeep; infer_instance

/-- Spec wording for the state branch: both state abbreviations are
non-null. -/
def StateKeep (cols : List String) (r : List (Option String)) : Prop :=
  (cellAt cols r "ORIGIN_STATE_ABR").isSome ∧ (cellAt cols r "DEST_STATE_ABR").isSome

instance (cols : List String) (r : List (Option String)) :
    Decidable (StateKeep cols r) := by
  unfold StateKeep; infer_instance

/-- Spec wording for the territory drop: either endpoint's state
abbreviation is in the fixed US-territory set. -/
def TerritoryRow (cols : List String) (r : List (Option String)) : Prop :=
  (∃ v ∈ US_TERRITORY_STATE_ABR, cellAt cols r "ORIGIN_STATE_ABR" = some v) ∨
  (∃ v ∈ US_TERRITORY_STATE_ABR, cellAt cols r "DEST_STATE_ABR" = some v)

instance (cols : List String) (r : List (Option String)) :
    Decidable (TerritoryRow cols r) := by
  unfold TerritoryRow; infer_instance

theorem countryMask_eq_decide (cols : List String) (r : List (Option String)) :
    countryMask cols r = decide (CountryKeep cols r) := by
  rw [Bool.eq_iff_iff]
  simp [countryMask, CountryKeep]

theorem stateMask_eq_decide (cols : List String) (r : List (Option String)) :
    stateMask cols r = decide (StateKeep cols r) := by
  rw [Bool.eq_iff_iff]
  simp [stateMask, StateKeep]

theorem isTerritory_eq_decide (v : Option String) :
    isTerritory v = decide (∃ w ∈ US_TERRITORY_STATE_ABR, v = some w) := by
  cases v with
  | none => simp [isTerritory]
  | some s =>
    rw [Bool.eq_iff_iff]
    simp [isTerritory, List.contains_iff_exists_mem_beq]

theorem stateTerrMask_eq_decide (cols : List String) (r : List (Option String)) :
    (stateMask cols r && territoryMask cols r) =
      decide (StateKeep cols r ∧ ¬ TerritoryRow cols r) := by
  rw [Bool.eq_iff_iff]
  simp [stateMask, territoryMask, StateKeep, TerritoryRow, isTerritory_eq_decide]

/-! ### Claim theorems -/

theorem domBranch_def (cols : List String) :
    domBranch cols =
      if "ORIGIN_COUNTRY_NAME" ∈ stdCols cols ∧ "DEST_COUNTRY_NAME" ∈ stdCols cols then
        DomSignal.countryName
      else if "ORIGIN_STATE_ABR" ∈ stdCols cols ∧ "DEST_STATE_ABR" ∈ stdCols cols then
        DomSignal.stateAbr
      else DomSignal.noSignal := rfl

theorem filter_domestic_def (b : Batch) (t : Bool) :
    filter_domestic b t =
      if "ORIGIN_COUNTRY_NAME" ∈ stdCols b.cols ∧
         "DEST_COUNTRY_NAME" ∈ stdCols b.cols then
        ⟨stdCols b.cols, b.rows.filter (countryMask (stdCols b.cols))⟩
      else if "ORIGIN_STATE_ABR" ∈ stdCols b.cols ∧
              "DEST_STATE_ABR" ∈ stdCols b.cols then
        if t then
          ⟨stdCols b.cols, b.rows.filter (stateMask (stdCols b.cols))⟩
        else
          ⟨stdCols b.cols, b.rows.filter (fun r =>
             stateMask (stdCols b.cols) r && territoryMask (stdCols b.cols) r)⟩
      else ⟨stdCols b.cols, b.rows⟩ := rfl

/-- C1: the Domestic Classifier's branch is a function of the column
list alone (`domBranch` takes only columns, so row values cannot
influence it), exactly one branch applies, and each branch keeps
exactly the rows its keep-condition describes: in the country branch
the rows where both country names equal "UNITED STATES" under
case-sensitive exact comparison; in the state branch the rows where
both state abbreviations are non-null, with rows touching a
US-territory abbreviation additionally dropped when
`include_territories` is false.  Presence of the canonical fields is
presence after the classifier's own schema reconciliation. -/
theorem C1_domestic_branch_selection (b : Batch) (t : Bool) :
    (domBranch b.cols = DomSignal.countryName ↔
      ("ORIGIN_COUNTRY_NAME" ∈ (standardize_columns b).cols ∧
       "DEST_COUNTRY_NAME" ∈ (standardize_columns b).cols)) ∧
    (domBranch b.cols = DomSignal.stateAbr ↔
      (¬("ORIGIN_COUNTRY_NAME" ∈ (standardize_columns b).cols ∧
         "DEST_COUNTRY_NAME" ∈ (standardize_columns b).cols) ∧
       ("ORIGIN_STATE_ABR" ∈ (standardize_columns b).cols ∧
        "DEST_STATE_ABR" ∈ (standardize_columns b).cols))) ∧
    (domBranch b.cols = DomSignal.countryName →
      filter_domestic b t =
        ⟨(standardize_columns b).cols,
         (standardize_columns b).rows.filter
           (fun r => decide (CountryKeep (standardize_columns b).cols r))⟩) ∧
    (domBranch b.cols = DomSignal.stateAbr →
      filter_domestic b t =
        ⟨(standardize_columns b).cols,
         (standardize_columns b).rows.filter (fun r =>
           if t then decide (StateKeep (standardize_columns b).cols r)
           else decide (StateKeep (standardize_columns b).cols r ∧
                        ¬ TerritoryRow (standardize_columns b).cols r))⟩) := by
  by_cases h1 : "ORIGIN_COUNTRY_NAME" ∈ stdCols b.cols ∧
      "DEST_COUNTRY_NAME" ∈ stdCols b.cols
  · have hdb : domBranch b.cols = DomSignal.countryName := by
      rw [domBranch_def, if_pos h1]
    refine ⟨⟨fun _ => h1, fun _ => hdb⟩, ?_, fun _ => ?_, fun hst => ?_⟩
    · constructor
      · intro hst
        rw [hdb] at hst
        exact absurd hst (by decide)
      · intro hp
        exact absurd h1 hp.1
    · rw [filter_domestic_def, if_pos h1]
      refine congrArg (Batch.mk _) ?_
      exact List.filter_congr (fun r _ => countryMask_eq_decide _ r)
    · rw [hdb] at hst
      exact absurd hst (by decide)
  · by_cases h2 : "ORIGIN_STATE_ABR" ∈ stdCols b.cols ∧
        "DEST_STATE_ABR" ∈ stdCols b.cols
    · have hdb : domBranch b.cols = DomSignal.stateAbr := by
        rw [domBranch_def, if_neg h1, if_pos h2]
      refine ⟨?_, ⟨fun _ => ⟨h1, h2⟩, fun _ => hdb⟩, fun hc => ?_, fun _ => ?_⟩
      · constructor
        · intro hc
          rw [hdb] at hc
          exact absurd hc (by decide)
        · intro hp
          exact absurd hp h1
      · rw [hdb] at hc
        exact absurd hc (by decide)
      · cases t with
        | true =>
          rw [filter_domestic_def, if_neg h1, if_pos h2, if_pos rfl]
          refine congrArg (Batch.mk _) ?_
          refine List.filter_congr (fun r _ => ?_)
          rw [if_pos rfl]
          exact stateMask_eq_decide _ r
        | false =>
          rw [filter_domestic_def, if_neg h1, if_pos h2,
            if_neg (by simp : ¬((false : Bool) = true))]
          refine congrArg (Batch.mk _) ?_
          refine List.filter_congr (fun r _ => ?_)
          rw [if_neg (by simp : ¬((false : Bool) = true))]
          exact stateTerrMask_eq_decide _ r
    · have hdb : domBranch b.cols = DomSignal.noSignal := by
        rw [domBranch_def, if_neg h1, if_neg h2]
      refine ⟨?_, ?_, fun hc => ?_, fun hst => ?_⟩
      · constructor
        · intro hc
          rw [hdb] at hc
          exact absurd hc (by decide)
        · intro hp
          exact absurd hp h1
      · constructor
        · intro hc
          rw [hdb] at hc
          exact absurd hc (by decide)
        · intro hp
          exact absurd hp.2 h2
      · rw [hdb] at hc
        exact absurd hc (by decide)
      · rw [hdb] at hst
        exact absurd hst (by decide)

/-- C10: when both country-name columns are present (after the
classifier's reconciliation), the `include_territories` flag has no
effect: the country branch never consults it. -/
theorem C10_territory_flag_noninterference (b : Batch)
    (h : "ORIGIN_COUNTRY_NAME" ∈ (standardize_columns b).cols ∧
         "DEST_COUNTRY_NAME" ∈ (standardize_columns b).cols) :
    filter_domestic b true = filter_domestic b false := by
  have h' : "ORIGIN_COUNTRY_NAME" ∈ stdCols b.cols ∧
      "DEST_COUNTRY_NAME" ∈ stdCols b.cols := h
  rw [filter_domestic_def, filter_domestic_def, if_pos h', if_pos h']

theorem C10_territory_flag_noninterference_witness :
    ("ORIGIN_COUNTRY_NAME" ∈
        (standardize_columns ⟨["OriginCountryName", "DestCountryName"],
          [[some "UNITED STATES", some "MEXICO"]]⟩).cols ∧
     "DEST_COUNTRY_NAME" ∈
        (standardize_columns ⟨["OriginCountryName", "DestCountryName"],
          [[some "UNITED STATES", some "MEXICO"]]⟩).cols) ∧
    filter_domestic ⟨["OriginCountryName", "DestCountryName"],
        [[some "UNITED STATES", some "MEXICO"]]⟩ true =
      filter_domestic ⟨["OriginCountryName", "DestCountryName"],
        [[some "UNITED STATES", some "MEXICO"]]⟩ false :=
  ⟨by decide, C10_territory_flag_noninterference _ (by decide)⟩

/-- C7 counterexample: `filter_domestic` does mutate columns.  The batch
with single column "FlightDate" has neither signal pair, yet it is not
returned unchanged: its column is renamed to FL_DATE. -/
theorem C7_classifier_frame_counterexample :
    domBranch ["FlightDate"] = DomSignal.noSignal ∧
    filter_domestic ⟨["FlightDate"], [[some "2023-01-01"]]⟩ true ≠
      ⟨["FlightDate"], [[some "2023-01-01"]]⟩ ∧
    (filter_domestic ⟨["FlightDate"], [[some "2023-01-01"]]⟩ true).cols ≠
      (Batch.mk ["FlightDate"] [[some "2023-01-01"]]).cols := by decide

/-- C7 amended: `filter_domestic` first reconciles the column names and
then only filters rows: the output's column set always equals the
reconciled input's column set; and when neither signal pair is present
after reconciliation, it returns the reconciled batch with every row
intact (hence a batch left fixed by reconciliation is returned
unchanged). -/
theorem C7_classifier_frame (b : Batch) (t : Bool) :
    (filter_domestic b t).cols = (standardize_columns b).cols ∧
    (domBranch b.cols = DomSignal.noSignal →
      filter_domestic b t = standardize_columns b) := by
  constructor
  · rw [filter_domestic_def]
    split_ifs <;> rfl
  · intro h
    have h1 : ¬("ORIGIN_COUNTRY_NAME" ∈ stdCols b.cols ∧
        "DEST_COUNTRY_NAME" ∈ stdCols b.cols) := by
      intro hc
      rw [domBranch_def, if_pos hc] at h
      exact absurd h (by decide)
    have h2 : ¬("ORIGIN_STATE_ABR" ∈ stdCols b.cols ∧
        "DEST_STATE_ABR" ∈ stdCols b.cols) := by
      intro hc
      rw [domBranch_def, if_neg h1, if_pos hc] at h
      exact absurd h (by decide)
    rw [filter_domestic_def, if_neg h1, if_neg h2]
    rfl

theorem C7_classifier_frame_witness :
    domBranch (Batch.mk ["FOO"] [[some "x"]]).cols = DomSignal.noSignal ∧
    filter_domestic ⟨["FOO"], [[some "x"]]⟩ true =
      standardize_columns ⟨["FOO"], [[some "x"]]⟩ :=
  ⟨by decide, (C7_classifier_frame ⟨["FOO"], [[some "x"]]⟩ true).2 (by decide)⟩

theorem select_output_cols_def (b : Batch) :
    select_output_cols b =
      if (OUTPUT_COLS.filter (fun c => decide (c ∈ stdCols b.cols))).isEmpty then
        ⟨[], []⟩
      else
        ⟨OUTPUT_COLS.filter (fun c => decide (c ∈ stdCols b.cols)),
         b.rows.map (fun r =>
           (OUTPUT_COLS.filter (fun c => decide (c ∈ stdCols b.cols))).map
             (fun c => cellAt (stdCols b.cols) r c))⟩ := rfl

/-- C6 counterexample: projection does not retain "exactly the columns
of b that belong to the Canonical Field Set".  The batch with single
column "FlightDate" has no column in `OUTPUT_COLS`, so the claim
predicts the empty sentinel; the code reconciles first and emits an
FL_DATE column that was never a column of the input. -/
theorem C6_projection_counterexample :
    select_output_cols ⟨["FlightDate"], [[some "2023-01-01"]]⟩ =
      ⟨["FL_DATE"], [[some "2023-01-01"]]⟩ ∧
    "FL_DATE" ∉ (Batch.mk ["FlightDate"] [[some "2023-01-01"]]).cols ∧
    (∀ c ∈ (Batch.mk ["FlightDate"] [[some "2023-01-01"]]).cols, c ∉ OUTPUT_COLS) := by
  decide

/-- C6 amended: `select_output_cols` retains exactly the columns of the
RECONCILED batch that belong to `OUTPUT_COLS`, in `OUTPUT_COLS`
declared order (the retained list is a sublist of `OUTPUT_COLS`); its
rows are in bijection with the input rows (same count, row i being the
projection of input row i); and when no reconciled column qualifies the
result is the empty-batch sentinel (zero rows, zero columns). -/
theorem C6_projection (b : Batch) :
    ((select_output_cols b).cols ≠ [] ∨ select_output_cols b = ⟨[], []⟩) ∧
    (OUTPUT_COLS.filter (fun c => decide (c ∈ (standardize_columns b).cols)) ≠ [] →
      (select_output_cols b).cols =
        OUTPUT_COLS.filter (fun c => decide (c ∈ (standardize_columns b).cols)) ∧
      (select_output_cols b).cols.Sublist OUTPUT_COLS ∧
      (select_output_cols b).rows.length = b.rows.length ∧
      (select_output_cols b).rows =
        (standardize_columns b).rows.map (fun r =>
          (select_output_cols b).cols.map
            (fun c => cellAt (standardize_columns b).cols r c))) ∧
    (OUTPUT_COLS.filter (fun c => decide (c ∈ (standardize_columns b).cols)) = [] →
      select_output_cols b = ⟨[], []⟩) := by
  have hfil : OUTPUT_COLS.filter (fun c => decide (c ∈ (standardize_columns b).cols)) =
      OUTPUT_COLS.filter (fun c => decide (c ∈ stdCols b.cols)) := rfl
  by_cases hem : OUTPUT_COLS.filter (fun c => decide (c ∈ stdCols b.cols)) = []
  · have hb : (OUTPUT_COLS.filter (fun c => decide (c ∈ stdCols b.cols))).isEmpty = true := by
      rw [hem]; rfl
    have hsel : select_output_cols b = ⟨[], []⟩ := by
      rw [select_output_cols_def, if_pos hb]
    refine ⟨Or.inr hsel, fun hne => ?_, fun _ => hsel⟩
    rw [hfil] at hne
    exact absurd hem hne
  · have hb : (OUTPUT_COLS.filter (fun c => decide (c ∈ stdCols b.cols))).isEmpty = false := by
      cases hc : OUTPUT_COLS.filter (fun c => decide (c ∈ stdCols b.cols)) with
      | nil => exact absurd hc hem
      | cons x xs => rfl
    have hnb : ¬((OUTPUT_COLS.filter (fun c => decide (c ∈ stdCols b.cols))).isEmpty = true) := by
      rw [hb]; simp
    have hsel : select_output_cols b =
        ⟨OUTPUT_COLS.filter (fun c => decide (c ∈ stdCols b.cols)),
         b.rows.map (fun r =>
           (OUTPUT_COLS.filter (fun c => decide (c ∈ stdCols b.cols))).map
             (fun c => cellAt (stdCols b.cols) r c))⟩ := by
      rw [select_output_cols_def, if_neg hnb]
    refine ⟨Or.inl ?_, fun _ => ⟨?_, ?_, ?_, ?_⟩, fun he => ?_⟩
    · rw [hsel]
      exact hem
    · rw [hsel]
      exact hfil
    · rw [hsel]
      exact List.filter_sublist _
    · rw [hsel]
      exact List.length_map _ _
    · rw [hsel]
      rfl
    · rw [hfil] at he
      exact absurd he hem

theorem C6_projection_witness :
    OUTPUT_COLS.filter (fun c => decide (c ∈
        (standardize_columns ⟨["FlightDate", "junk"], [[some "d", some "j"]]⟩).cols)) ≠ [] ∧
    (select_output_cols ⟨["FlightDate", "junk"], [[some "d", some "j"]]⟩).cols =
      OUTPUT_COLS.filter (fun c => decide (c ∈
        (standardize_columns ⟨["FlightDate", "junk"], [[some "d", some "j"]]⟩).cols)) :=
  ⟨by decide,
   ((C6_projection ⟨["FlightDate", "junk"], [[some "d", some "j"]]⟩).2.1 (by decide)).1⟩

theorem keep_aa_true_def (b : Batch) :
    keep_aa b true =
      match (if "MKT_UNIQUE_CARRIER" ∈ stdCols b.cols then some "MKT_UNIQUE_CARRIER"
             else ["OP_UNIQUE_CARRIER"].find? (fun c => decide (c ∈ stdCols b.cols))) with
      | none => Except.error ⟨"Missing carrier column", stdCols b.cols⟩
      | some col => Except.ok ⟨stdCols b.cols,
          b.rows.filter (fun r => cellAt (stdCols b.cols) r col == some "AA")⟩ := rfl

theorem keep_aa_false_def (b : Batch) :
    keep_aa b false =
      match (if "OP_UNIQUE_CARRIER" ∈ stdCols b.cols then some "OP_UNIQUE_CARRIER"
             else ["MKT_UNIQUE_CARRIER"].find? (fun c => decide (c ∈ stdCols b.cols))) with
      | none => Except.error ⟨"Missing carrier column", stdCols b.cols⟩
      | some col => Except.ok ⟨stdCols b.cols,
          b.rows.filter (fun r => cellAt (stdCols b.cols) r col == some "AA")⟩ := rfl

/-- The carrier column `keep_aa` resolves, as a function of the
reconciled column list and the `use_marketing` flag alone. -/
def resolveCarrier (cols : List String) (use_marketing : Bool) : Option String :=
  match use_marketing with
  | true =>
    if "MKT_UNIQUE_CARRIER" ∈ cols then some "MKT_UNIQUE_CARRIER"
    else if "OP_UNIQUE_CARRIER" ∈ cols then some "OP_UNIQUE_CARRIER"
    else none
  | false =>
    if "OP_UNIQUE_CARRIER" ∈ cols then some "OP_UNIQUE_CARRIER"
    else if "MKT_UNIQUE_CARRIER" ∈ cols then some "MKT_UNIQUE_CARRIER"
    else none

theorem keep_aa_resolved (b : Batch) (m : Bool) :
    keep_aa b m =
      match resolveCarrier (stdCols b.cols) m with
      | none => Except.error ⟨"Missing carrier column", stdCols b.cols⟩
      | some col => Except.ok ⟨stdCols b.cols,
          b.rows.filter (fun r => cellAt (stdCols b.cols) r col == some "AA")⟩ := by
  cases m with
  | true =>
    rw [keep_aa_true_def]
    simp only [resolveCarrier]
    by_cases hM : "MKT_UNIQUE_CARRIER" ∈ stdCols b.cols
    · rw [if_pos hM, if_pos hM]
    · rw [if_neg hM, if_neg hM]
      by_cases hO : "OP_UNIQUE_CARRIER" ∈ stdCols b.cols
      · rw [if_pos hO]
        have : ["OP_UNIQUE_CARRIER"].find? (fun c => decide (c ∈ stdCols b.cols)) =
            some "OP_UNIQUE_CARRIER" :=
          List.find?_cons_of_pos _ (by simpa using hO)
        rw [this]
      · rw [if_neg hO]
        have : ["OP_UNIQUE_CARRIER"].find? (fun c => decide (c ∈ stdCols b.cols)) = none := by
          rw [List.find?_eq_none]
          intro x hx
          simp only [List.mem_singleton] at hx
          subst hx
          simpa using hO
        rw [this]
  | false =>
    rw [keep_aa_false_def]
    simp only [resolveCarrier]
    by_cases hO : "OP_UNIQUE_CARRIER" ∈ stdCols b.cols
    · rw [if_pos hO, if_pos hO]
    · rw [if_neg hO, if_neg hO]
      by_cases hM : "MKT_UNIQUE_CARRIER" ∈ stdCols b.cols
      · rw [if_pos hM]
        have : ["MKT_UNIQUE_CARRIER"].find? (fun c => decide (c ∈ stdCols b.cols)) =
            some "MKT_UNIQUE_CARRIER" :=
          List.find?_cons_of_pos _ (by simpa using hM)
        rw [this]
      · rw [if_neg hM]
        have : ["MKT_UNIQUE_CARRIER"].find? (fun c => decide (c ∈ stdCols b.cols)) = none := by
          rw [List.find?_eq_none]
          intro x hx
          simp only [List.mem_singleton] at hx
          subst hx
          simpa using hM
        rw [this]

theorem standardize_columns_cols (b : Batch) :
    (standardize_columns b).cols = stdCols b.cols := rfl

theorem standardize_columns_rows (b : Batch) :
    (standardize_columns b).rows = b.rows := rfl

/-- C2: when at least one carrier field is present after reconciliation,
the resolved field is a function of presence and the `prefer_marketing`
flag alone: the preferred field when both are present, otherwise the
other one; and `keep_aa` keeps exactly the rows whose value in the
resolved field equals the target code "AA" under exact string
comparison. -/
theorem C2_carrier_selection (b : Batch) (m : Bool)
    (h : "MKT_UNIQUE_CARRIER" ∈ (standardize_columns b).cols ∨
         "OP_UNIQUE_CARRIER" ∈ (standardize_columns b).cols) :
    ∃ col,
      resolveCarrier (standardize_columns b).cols m = some col ∧
      (("MKT_UNIQUE_CARRIER" ∈ (standardize_columns b).cols ∧
        "OP_UNIQUE_CARRIER" ∈ (standardize_columns b).cols) →
        col = if m then "MKT_UNIQUE_CARRIER" else "OP_UNIQUE_CARRIER") ∧
      ((if m then "MKT_UNIQUE_CARRIER" else "OP_UNIQUE_CARRIER") ∉
          (standardize_columns b).cols →
        col = if m then "OP_UNIQUE_CARRIER" else "MKT_UNIQUE_CARRIER") ∧
      keep_aa b m = Except.ok
        ⟨(standardize_columns b).cols,
         (standardize_columns b).rows.filter
           (fun r => decide (cellAt (standardize_columns b).cols r col = some "AA"))⟩ := by
  have h' : "MKT_UNIQUE_CARRIER" ∈ stdCols b.cols ∨
      "OP_UNIQUE_CARRIER" ∈ stdCols b.cols := h
  simp only [standardize_columns_cols, standardize_columns_rows]
  have hglue : ∀ (col : String) (r : List (Option String)),
      (cellAt (stdCols b.cols) r col == some "AA") =
        decide (cellAt (stdCols b.cols) r col = some "AA") := by
    intro col r
    rw [Bool.eq_iff_iff]
    simp
  cases m with
  | true =>
    by_cases hM : "MKT_UNIQUE_CARRIER" ∈ stdCols b.cols
    · have hres : resolveCarrier (stdCols b.cols) true = some "MKT_UNIQUE_CARRIER" := by
        simp only [resolveCarrier]
        rw [if_pos hM]
      refine ⟨"MKT_UNIQUE_CARRIER", hres, fun _ => rfl, fun hn => absurd hM hn, ?_⟩
      rw [keep_aa_resolved, hres]
      exact congrArg Except.ok (congrArg (Batch.mk _)
        (List.filter_congr (fun r _ => hglue _ r)))
    · have hO : "OP_UNIQUE_CARRIER" ∈ stdCols b.cols := h'.resolve_left hM
      have hres : resolveCarrier (stdCols b.cols) true = some "OP_UNIQUE_CARRIER" := by
        simp only [resolveCarrier]
        rw [if_neg hM, if_pos hO]
      refine ⟨"OP_UNIQUE_CARRIER", hres, fun hand => absurd hand.1 hM, fun _ => rfl, ?_⟩
      rw [keep_aa_resolved, hres]
      exact congrArg Except.ok (congrArg (Batch.mk _)
        (List.filter_congr (fun r _ => hglue _ r)))
  | false =>
    by_cases hO : "OP_UNIQUE_CARRIER" ∈ stdCols b.cols
    · have hres : resolveCarrier (stdCols b.cols) false = some "OP_UNIQUE_CARRIER" := by
        simp only [resolveCarrier]
        rw [if_pos hO]
      refine ⟨"OP_UNIQUE_CARRIER", hres, fun _ => rfl, fun hn => absurd hO hn, ?_⟩
      rw [keep_aa_resolved, hres]
      exact congrArg Except.ok (congrArg (Batch.mk _)
        (List.filter_congr (fun r _ => hglue _ r)))
    · have hM : "MKT_UNIQUE_CARRIER" ∈ stdCols b.cols := h'.resolve_right hO
      have hres : resolveCarrier (stdCols b.cols) false = some "MKT_UNIQUE_CARRIER" := by
        simp only [resolveCarrier]
        rw [if_neg hO, if_pos hM]
      refine ⟨"MKT_UNIQUE_CARRIER", hres, fun hand => absurd hand.2 hO, fun _ => rfl, ?_⟩
      rw [keep_aa_resolved, hres]
      exact congrArg Except.ok (congrArg (Batch.mk _)
        (List.filter_congr (fun r _ => hglue _ r)))

theorem C2_carrier_selection_witness :
    ("MKT_UNIQUE_CARRIER" ∈ (standardize_columns
        ⟨["OP_UNIQUE_CARRIER", "MKT_UNIQUE_CARRIER"],
         [[some "AA", some "DL"], [some "UA", some "AA"]]⟩).cols ∨
     "OP_UNIQUE_CARRIER" ∈ (standardize_columns
        ⟨["OP_UNIQUE_CARRIER", "MKT_UNIQUE_CARRIER"],
         [[some "AA", some "DL"], [some "UA", some "AA"]]⟩).cols) ∧
    keep_aa ⟨["OP_UNIQUE_CARRIER", "MKT_UNIQUE_CARRIER"],
        [[some "AA", some "DL"], [some "UA", some "AA"]]⟩ true =
      Except.ok ⟨["OP_UNIQUE_CARRIER", "MKT_UNIQUE_CARRIER"], [[some "UA", some "AA"]]⟩ := by
  refine ⟨Or.inl (by decide), ?_⟩
  obtain ⟨col, h1, h2, h3, h4⟩ :=
    C2_carrier_selection ⟨["OP_UNIQUE_CARRIER", "MKT_UNIQUE_CARRIER"],
      [[some "AA", some "DL"], [some "UA", some "AA"]]⟩ true (Or.inl (by decide))
  have hcol : col = "MKT_UNIQUE_CARRIER" := h2 ⟨by decide, by decide⟩
  rw [hcol] at h4
  rw [h4]
  rfl

/-- C3: when neither carrier field is resolvable after reconciliation,
`keep_aa` fails hard with the schema error that names the missing
carrier column and carries the batch's available columns; the outcome
depends only on the column list, never on row content, and is never a
silently empty success. -/
theorem C3_schema_error_on_missing_carrier (b : Batch) (m : Bool)
    (hM : "MKT_UNIQUE_CARRIER" ∉ (standardize_columns b).cols)
    (hO : "OP_UNIQUE_CARRIER" ∉ (standardize_columns b).cols) :
    keep_aa b m =
      Except.error ⟨"Missing carrier column", (standardize_columns b).cols⟩ ∧
    (∀ rows2, keep_aa ⟨b.cols, rows2⟩ m =
      Except.error ⟨"Missing carrier column", (standardize_columns b).cols⟩) ∧
    (∀ e, keep_aa b m ≠ Except.ok e) := by
  have hM' : "MKT_UNIQUE_CARRIER" ∉ stdCols b.cols := hM
  have hO' : "OP_UNIQUE_CARRIER" ∉ stdCols b.cols := hO
  have hres : resolveCarrier (stdCols b.cols) m = none := by
    cases m with
    | true =>
      simp only [resolveCarrier]
      rw [if_neg hM', if_neg hO']
    | false =>
      simp only [resolveCarrier]
      rw [if_neg hO', if_neg hM']
  have hka : keep_aa b m =
      Except.error ⟨"Missing carrier column", stdCols b.cols⟩ := by
    rw [keep_aa_resolved, hres]
  refine ⟨hka, fun rows2 => ?_, fun e he => ?_⟩
  · have hres2 : resolveCarrier (stdCols (Batch.mk b.cols rows2).cols) m = none := hres
    rw [keep_aa_resolved, hres2]
    rfl
  · rw [hka] at he
    exact Except.noConfusion he

theorem C3_schema_error_on_missing_carrier_witness :
    ("MKT_UNIQUE_CARRIER" ∉ (standardize_columns ⟨["ORIGIN", "DEST"],
        [[some "JFK", some "LAX"]]⟩).cols ∧
     "OP_UNIQUE_CARRIER" ∉ (standardize_columns ⟨["ORIGIN", "DEST"],
        [[some "JFK", some "LAX"]]⟩).cols) ∧
    keep_aa ⟨["ORIGIN", "DEST"], [[some "JFK", some "LAX"]]⟩ false =
      Except.error ⟨"Missing carrier column",
        (standardize_columns ⟨["ORIGIN", "DEST"], [[some "JFK", some "LAX"]]⟩).cols⟩ :=
  ⟨⟨by decide, by decide⟩,
   (C3_schema_error_on_missing_carrier ⟨["ORIGIN", "DEST"], [[some "JFK", some "LAX"]]⟩
     false (by decide) (by decide)).1⟩

theorem C1_domestic_branch_selection_witness :
    domBranch (Batch.mk ["OriginCountryName", "DestCountryName"]
      [[some "UNITED STATES", some "UNITED STATES"],
       [some "UNITED STATES", some "CANADA"]]).cols = DomSignal.countryName ∧
    filter_domestic ⟨["OriginCountryName", "DestCountryName"],
        [[some "UNITED STATES", some "UNITED STATES"],
         [some "UNITED STATES", some "CANADA"]]⟩ true =
      ⟨(standardize_columns ⟨["OriginCountryName", "DestCountryName"],
          [[some "UNITED STATES", some "UNITED STATES"],
           [some "UNITED STATES", some "CANADA"]]⟩).cols,
       (standardize_columns ⟨["OriginCountryName", "DestCountryName"],
          [[some "UNITED STATES", some "UNITED STATES"],
           [some "UNITED STATES", some "CANADA"]]⟩).rows.filter
         (fun r => decide (CountryKeep
           (standardize_columns ⟨["OriginCountryName", "DestCountryName"],
             [[some "UNITED STATES", some "UNITED STATES"],
              [some "UNITED STATES", some "CANADA"]]⟩).cols r))⟩ :=
  ⟨by decide, (C1_domestic_branch_selection _ true).2.2.1 (by decide)⟩

/-- C4: reconciliation is idempotent on every batch
(`reconcile(reconcile(b)) = reconcile(b)`), and it is the identity on a
batch whose columns are already canonical names (each canonical field's
alias list starts with the canonical name itself). -/
theorem C4_reconcile_idempotent (b : Batch) :
    standardize_columns (standardize_columns b) = standardize_columns b ∧
    ((∀ c ∈ b.cols, c ∈ CANON_MAP.map Prod.fst) → standardize_columns b = b) := by
  constructor
  · show (⟨stdCols (stdCols b.cols), b.rows⟩ : Batch) = ⟨stdCols b.cols, b.rows⟩
    rw [stdCols_idem]
  · intro h
    have h1 : ∀ c ∈ b.cols, renameCol b.cols c = c :=
      fun c _ => renameCol_id_of_pairs_eq (renameMap_canonical_pairs h) c
    show (⟨stdCols b.cols, b.rows⟩ : Batch) = b
    have h2 : stdCols b.cols = b.cols := by
      unfold stdCols
      calc b.cols.map (renameCol b.cols) = b.cols.map id := List.map_congr_left h1
      _ = b.cols := List.map_id _
    rw [h2]

theorem C4_reconcile_idempotent_witness :
    standardize_columns (standardize_columns
        ⟨["FlightDate", "OriginState"], [[some "d", some "TX"]]⟩) =
      standardize_columns ⟨["FlightDate", "OriginState"], [[some "d", some "TX"]]⟩ ∧
    (∀ c ∈ (Batch.mk ["FL_DATE", "ORIGIN"] [[some "d", some "JFK"]]).cols,
        c ∈ CANON_MAP.map Prod.fst) ∧
    standardize_columns ⟨["FL_DATE", "ORIGIN"], [[some "d", some "JFK"]]⟩ =
      ⟨["FL_DATE", "ORIGIN"], [[some "d", some "JFK"]]⟩ :=
  ⟨(C4_reconcile_idempotent _).1, by decide,
   (C4_reconcile_idempotent ⟨["FL_DATE", "ORIGIN"], [[some "d", some "JFK"]]⟩).2 (by decide)⟩

/-- ASCII letters and digits — the character class the spec's wording
keeps before uppercasing. -/
def isAsciiLetterOrDigit (c : Char) : Bool :=
  ('A' ≤ c && c ≤ 'Z') || ('a' ≤ c && c ≤ 'z') || ('0' ≤ c && c ≤ '9')

/-- The Column Normalizer contract exactly as the spec words it: strip
all characters that are not ASCII letters or digits, THEN uppercase.
Stated for comparison with the source-order `_norm` (uppercase, then
strip). -/
def specNormalize (s : String) : String :=
  String.mk ((s.toList.filter isAsciiLetterOrDigit).map Char.toUpper)

theorem upperDigit_toUpper (c : Char) (h : c.toNat < 128) :
    isUpperDigit (Char.toUpper c) = isAsciiLetterOrDigit c := by
  have key : ∀ n : Fin 128,
      isUpperDigit (Char.toUpper (Char.ofNat n.val)) =
        isAsciiLetterOrDigit (Char.ofNat n.val) := by decide
  have h2 := key ⟨c.toNat, h⟩
  rwa [Char.ofNat_toNat] at h2

theorem winnerCol_isSome_eq (cols : List String) (n : String) :
    (winnerCol cols n).isSome = decide (∃ c ∈ cols, _norm c = n) := by
  rw [Bool.eq_iff_iff]
  simp only [decide_eq_true_eq, Option.isSome_iff_exists]
  constructor
  · rintro ⟨act, hw⟩
    obtain ⟨hm, hn⟩ := winnerCol_mem_norm hw
    exact ⟨act, hm, hn⟩
  · rintro ⟨c, hc, hn⟩
    cases hw : winnerCol cols n with
    | some w => exact ⟨w, rfl⟩
    | none => exact absurd hn (winnerCol_eq_none.mp hw c hc)

/-- C5: the normalizer's key agrees with the spec's strip-then-uppercase
contract on ASCII column names (the domain where the embedding of
Python's `str.upper` is exact); resolution binds, per canonical field,
the first alias in declared order whose normalized form matches a
normalized actual column, binding it to an actual column of that
normalized form; zero matches is not an error (the binding is simply
absent, and with no bindings at all reconciliation is the identity);
and there is at most one binding per canonical field. -/
theorem C5_normalizer_resolution :
    (∀ s : String, (∀ c ∈ s.toList, c.toNat < 128) → _norm s = specNormalize s) ∧
    (∀ (cols : List String), ∀ kv ∈ CANON_MAP,
      (bindEntry cols kv = none ↔ ∀ a ∈ kv.2, ∀ c ∈ cols, _norm c ≠ _norm a)) ∧
    (∀ (cols : List String), ∀ kv ∈ CANON_MAP, ∀ p, bindEntry cols kv = some p →
      p.2 = kv.1 ∧ p.1 ∈ cols ∧
      ∃ a, kv.2.find? (fun x => decide (∃ c ∈ cols, _norm c = _norm x)) = some a ∧
        _norm p.1 = _norm a) ∧
    (∀ (cols : List String), ∀ p ∈ renameMap cols, ∀ q ∈ renameMap cols,
      p.2 = q.2 → p = q) ∧
    (∀ b : Batch, renameMap b.cols = [] → standardize_columns b = b) := by
  refine ⟨?_, ?_, ?_, ?_, ?_⟩
  · intro s h
    unfold _norm specNormalize
    rw [List.filter_map]
    refine congrArg String.mk (congrArg (List.map Char.toUpper) ?_)
    exact List.filter_congr (fun c hc => upperDigit_toUpper c (h c hc))
  · intro cols kv _
    rw [bindEntry_eq_none]
    constructor
    · intro h a ha c hc
      exact winnerCol_eq_none.mp (h a ha) c hc
    · intro h a ha
      exact winnerCol_eq_none.mpr (h a ha)
  · intro cols kv _ p hsome
    obtain ⟨hp2, a, ha, hfind, hw⟩ := bindEntry_eq_some hsome
    obtain ⟨hmem, hnorm⟩ := winnerCol_mem_norm hw
    refine ⟨hp2, hmem, a, ?_, hnorm⟩
    have hcongr : kv.2.find? (fun x => decide (∃ c ∈ cols, _norm c = _norm x)) =
        kv.2.find? (fun x => (winnerCol cols (_norm x)).isSome) :=
      find?_congr (fun x _ => (winnerCol_isSome_eq cols (_norm x)).symm)
    rw [hcongr, hfind]
  · intro cols p hp q hq h
    exact renameMap_snd_unique hp hq h
  · intro b hempty
    show (⟨stdCols b.cols, b.rows⟩ : Batch) = b
    have h1 : ∀ c ∈ b.cols, renameCol b.cols c = c := by
      intro c _
      unfold renameCol
      rw [hempty]
      rfl
    have h2 : stdCols b.cols = b.cols := by
      unfold stdCols
      calc b.cols.map (renameCol b.cols) = b.cols.map id := List.map_congr_left h1
      _ = b.cols := List.map_id _
    rw [h2]

theorem C5_normalizer_resolution_witness :
    (∀ c ∈ ("Operating_Airline" : String).toList, c.toNat < 128) ∧
    _norm "Operating_Airline" = specNormalize "Operating_Airline" :=
  ⟨by decide, (C5_normalizer_resolution.1 "Operating_Airline") (by decide)⟩

/-- Is a CSV line a header line? -/
def isHeader : CsvLine → Bool
  | .header _ => true
  | .row _ => false

/-- The driver's fold from an arbitrary file/flag state. -/
def runFrom (batches : List Batch) (file : List CsvLine) (h : Bool) :
    List CsvLine × Bool :=
  batches.foldl (fun st b => append_write b st.1 st.2) (file, h)

theorem runAppend_eq_runFrom (batches : List Batch) :
    runAppend batches = runFrom batches [] false := rfl

theorem append_write_of_empty {b : Batch} (file : List CsvLine) (h : Bool)
    (he : b.isEmptyDf = true) : append_write b file h = (file, h) := by
  unfold append_write
  rw [if_pos he]

theorem append_write_of_nonempty {b : Batch} (file : List CsvLine) (h : Bool)
    (he : b.isEmptyDf = false) :
    append_write b file h =
      (file ++ (if h then [] else [CsvLine.header b.cols]) ++ b.rows.map CsvLine.row,
       true) := by
  unfold append_write
  rw [if_neg (by rw [he]; simp)]

theorem runFrom_cons (b : Batch) (bs : List Batch) (file : List CsvLine) (h : Bool) :
    runFrom (b :: bs) file h =
      runFrom bs (append_write b file h).1 (append_write b file h).2 := rfl

theorem runFrom_flag : ∀ (bs : List Batch) (file : List CsvLine) (h : Bool),
    (runFrom bs file h).2 = (h || bs.any (fun b => !b.isEmptyDf)) := by
  intro bs
  induction bs with
  | nil => intro file h; simp [runFrom]
  | cons b bs ih =>
    intro file h
    rw [runFrom_cons]
    cases hb : b.isEmptyDf with
    | true =>
      rw [append_write_of_empty file h hb]
      rw [ih]
      simp [hb]
    | false =>
      rw [append_write_of_nonempty file h hb]
      rw [ih]
      simp [hb]

theorem countP_isHeader_rows (rows : List (List (Option String))) :
    (rows.map CsvLine.row).countP isHeader = 0 := by
  induction rows with
  | nil => rfl
  | cons r rs ih =>
    rw [List.map_cons, List.countP_cons]
    simp [isHeader, ih]

theorem runFrom_headerCount : ∀ (bs : List Batch) (file : List CsvLine) (h : Bool),
    (runFrom bs file h).1.countP isHeader =
      file.countP isHeader +
        (if h then 0 else (if bs.any (fun b => !b.isEmptyDf) then 1 else 0)) := by
  intro bs
  induction bs with
  | nil =>
    intro file h
    cases h <;> simp [runFrom]
  | cons b bs ih =>
    intro file h
    rw [runFrom_cons]
    cases hb : b.isEmptyDf with
    | true =>
      rw [append_write_of_empty file h hb, ih]
      simp [hb]
    | false =>
      rw [append_write_of_nonempty file h hb, ih]
      rw [List.countP_append, List.countP_append, countP_isHeader_rows]
      cases h with
      | true => simp
      | false => simp [List.countP_cons, isHeader, hb]

theorem runFrom_file_extends : ∀ (bs : List Batch) (file : List CsvLine) (h : Bool),
    ∃ suf, (runFrom bs file h).1 = file ++ suf := by
  intro bs
  induction bs with
  | nil => intro file h; exact ⟨[], by simp [runFrom]⟩
  | cons b bs ih =>
    intro file h
    rw [runFrom_cons]
    cases hb : b.isEmptyDf with
    | true =>
      rw [append_write_of_empty file h hb]
      exact ih file h
    | false =>
      rw [append_write_of_nonempty file h hb]
      obtain ⟨suf, hsuf⟩ :=
        ih (file ++ (if h then [] else [CsvLine.header b.cols]) ++ b.rows.map CsvLine.row) true
      exact ⟨(if h then [] else [CsvLine.header b.cols]) ++ b.rows.map CsvLine.row ++ suf,
        by rw [hsuf]; simp⟩

theorem runFrom_head? : ∀ bs : List Batch,
    (runFrom bs [] false).1.head? =
      (bs.find? (fun b => !b.isEmptyDf)).map (fun b => CsvLine.header b.cols) := by
  intro bs
  induction bs with
  | nil => rfl
  | cons b bs ih =>
    rw [runFrom_cons]
    cases hb : b.isEmptyDf with
    | true =>
      rw [append_write_of_empty [] false hb]
      rw [ih]
      rw [List.find?_cons_of_neg _ (by show ¬(!b.isEmptyDf) = true; rw [hb]; simp)]
    | false =>
      rw [append_write_of_nonempty [] false hb]
      obtain ⟨suf, hsuf⟩ := runFrom_file_extends bs
        ([] ++ (if false then [] else [CsvLine.header b.cols]) ++ b.rows.map CsvLine.row) true
      rw [hsuf]
      rw [List.find?_cons_of_pos _ (by show (!b.isEmptyDf) = true; rw [hb]; rfl)]
      simp

/-- C8: appending an empty batch writes nothing and returns the header
flag unchanged; appending a non-empty batch writes a header exactly
when the flag was false and returns true; the flag is monotonic; and
over a whole run the header is written exactly once, as the first line
of the file, by the first non-empty batch (no header at all when every
batch is empty). -/
theorem C8_sink_header_invariant :
    (∀ (b : Batch) (file : List CsvLine) (h : Bool),
      b.isEmptyDf = true → append_write b file h = (file, h)) ∧
    (∀ (b : Batch) (file : List CsvLine) (h : Bool), b.isEmptyDf = false →
      (append_write b file h).2 = true ∧
      (append_write b file h).1 =
        file ++ (if h then [] else [CsvLine.header b.cols]) ++ b.rows.map CsvLine.row) ∧
    (∀ (b : Batch) (file : List CsvLine), (append_write b file true).2 = true) ∧
    (∀ batches : List Batch,
      (runAppend batches).2 = batches.any (fun b => !b.isEmptyDf) ∧
      (runAppend batches).1.countP isHeader =
        (if batches.any (fun b => !b.isEmptyDf) then 1 else 0) ∧
      (runAppend batches).1.head? =
        (batches.find? (fun b => !b.isEmptyDf)).map (fun b => CsvLine.header b.cols)) := by
  refine ⟨fun b file h he => append_write_of_empty file h he,
          fun b file h he => ?_, fun b file => ?_, fun batches => ⟨?_, ?_, ?_⟩⟩
  · rw [append_write_of_nonempty file h he]
    exact ⟨rfl, rfl⟩
  · unfold append_write
    by_cases he : b.isEmptyDf = true
    · rw [if_pos he]
    · rw [if_neg he]
  · rw [runAppend_eq_runFrom, runFrom_flag]
    rfl
  · rw [runAppend_eq_runFrom, runFrom_headerCount]
    simp
  · rw [runAppend_eq_runFrom, runFrom_head?]

theorem C8_sink_header_invariant_witness :
    (Batch.mk ["A"] []).isEmptyDf = true ∧
    append_write ⟨["A"], []⟩ [CsvLine.header ["A"]] true =
      ([CsvLine.header ["A"]], true) ∧
    (Batch.mk ["A"] [[some "1"]]).isEmptyDf = false ∧
    (append_write ⟨["A"], [[some "1"]]⟩ [] false).2 = true :=
  ⟨by decide,
   C8_sink_header_invariant.1 ⟨["A"], []⟩ [CsvLine.header ["A"]] true (by decide),
   by decide,
   (C8_sink_header_invariant.2.1 ⟨["A"], [[some "1"]]⟩ [] false (by decide)).1⟩
